import Mathlib

/-!
Verification of the module-tree builder in `src/files.rs` of `godot-doc-rs`.

The Rust code builds a crate's module tree: `Package::from_root_file` reads and
parses the root source file, then `PackageBuilder::add_module` and
`PackageBuilder::explore_submodules` recursively discover every declared
submodule, resolving declared-only modules (`mod name;`) to files through the
`mod.rs` / sibling-file naming convention.

Shallow embedding choices:
- `PathBuf` is modelled as the list of its components (`Path := List String`);
  `file_name` is the last component, `pop` drops it, `push` appends, and
  `set_extension` follows Rust's stem/extension split (the extension is what
  follows the last dot of the file name, unless that dot is its first
  character).
- The filesystem and the `syn` parser are an explicit environment `Env`:
  `read` models `fs::read_to_string`, `parse` models `syn::parse_file`, and
  `pathExists` models `Path::exists`.
- `syn::Item` is modelled by `Item`: the builder only distinguishes module
  items (`Item.mod`, carrying visibility, identifier and optional inline body)
  from everything else (`Item.other`, an opaque payload).
- The recursion of `add_module` / `explore_submodules` is not structurally
  terminating (the real program recurses through the filesystem and can loop,
  e.g. a root `lib.rs` whose text declares `mod lib;`), so both functions take
  fuel and return `none` when it runs out; `some` results coincide with the
  Rust behaviour.
-/

namespace GodotDoc

/-- A filesystem path, as the list of its components; the last component is
the file name. Mirrors `std::path::PathBuf` as used by `files.rs`. -/
abbrev Path := List String

/-- Handle for a `Module` (Rust: `pub type ModuleId = u32`). -/
abbrev ModuleId := Nat

/-- Opaque model of `syn::Attribute`. -/
abbrev Attribute := String

/-- Model of `syn::Visibility`: the builder only clones and stores it. -/
inductive Visibility where
  | pub
  | inherited
  | restricted (path : String)
deriving DecidableEq, Repr

/-- Model of `syn::Item`: a module item (`syn::Item::Mod`) carries its
visibility, identifier and optional inline body `content`; every other item
kind is opaque to the builder. -/
inductive Item where
  | mod (vis : Visibility) (ident : String) (content : Option (List Item))
  | other (payload : String)

/-- Model of the `Error` enum of `files.rs`: `Error::Io(PathBuf, io::Error)`
(named `IoError` here) and `Error::Syn(syn::Error)`. -/
inductive Error where
  | IoError (path : Path) (message : String)
  | Syn (message : String)

/-- Model of `syn::File`: parsed items and file-level attributes. -/
structure ParsedFile where
  items : List Item
  attrs : List Attribute

/-- The ambient world: filesystem reads, filesystem existence checks, and the
external `syn` parser, all opaque capabilities of `files.rs`. -/
structure Env where
  read : Path → Except String String
  parse : String → Except String ParsedFile
  pathExists : Path → Bool

/-- Model of the `Module` struct of `files.rs` (same fields). -/
structure Module where
  file : Path
  internal_path : List String
  visibility : Visibility
  submodules : List ModuleId
  parent : ModuleId
  items : List Item
  attributes : Option (List Attribute)

/-- Model of the `Package` struct of `files.rs`; the two `HashMap`s are
association lists with replace-on-insert semantics. -/
structure Package where
  root_module : ModuleId
  files_to_ids : List (Path × ModuleId)
  modules : List (ModuleId × Module)

/-- Model of the private `PackageBuilder` struct of `files.rs`. -/
structure PackageBuilder where
  next_module_id : ModuleId
  files_to_ids : List (Path × ModuleId)
  modules : List (ModuleId × Module)

/-- `HashMap::insert`: replace the binding of the key if present, otherwise
append a new binding. -/
def insertA {α β : Type} [DecidableEq α] : List (α × β) → α → β → List (α × β)
  | [], k, v => [(k, v)]
  | (k2, v2) :: rest, k, v =>
      if k2 = k then (k, v) :: rest else (k2, v2) :: insertA rest k v

/-- `HashMap` lookup on the association-list model. -/
def lookupA {α β : Type} [DecidableEq α] : List (α × β) → α → Option β
  | [], _ => none
  | (k2, v2) :: rest, k => if k2 = k then some v2 else lookupA rest k

/-- Rust `Path::file_stem` and `Path::extension` combined: split a file name
at its last dot; a dot that is the first character does not start an
extension. Returns the stem and the optional extension. -/
def splitExt (name : String) : String × Option String :=
  match name.data.reverse.span (fun c => c ≠ '.') with
  | (_, []) => (name, none)
  | (extRev, _ :: stemRev) =>
      if stemRev.isEmpty then (name, none)
      else (⟨stemRev.reverse⟩, some ⟨extRev.reverse⟩)

/-- Rust `PathBuf::set_extension`: truncate the file name to its stem, then
append a dot and the new extension when the latter is nonempty. A path with
no file name is unchanged. -/
def setExtension (p : Path) (ext : String) : Path :=
  match p.getLast? with
  | none => p
  | some name =>
      let stem := (splitExt name).1
      p.dropLast ++ [if ext.isEmpty then stem else stem ++ "." ++ ext]

/-- Path inference for a declared-only module, `files.rs` lines 214-233:
from the current file and the child's already-extended internal path, compute
the base directory (the parent directory for an index file `mod.rs`/`lib.rs`,
the extension-stripped current path otherwise), push every internal-path
segment past the root sentinel, then prefer the candidate directory's
`mod.rs` over the flat sibling `.rs` file. `none` models the `continue` taken
when the current file has no final name component. -/
def resolveModFile (pathExists : Path → Bool) (path : Path)
    (internalPath : List String) : Option Path :=
  match path.getLast? with
  | none => none
  | some last =>
      let base := if last = "mod.rs" ∨ last = "lib.rs"
        then path.dropLast else setExtension path ""
      let candidate := base ++ internalPath.drop 1
      let pathModRs := candidate ++ ["mod.rs"]
      if pathExists pathModRs then some pathModRs
      else some (setExtension candidate "rs")

mutual

/-- `PackageBuilder::add_module` (`files.rs` lines 148-176): allocate the next
identifier, register the file when the internal path is a single segment,
explore the items for submodules, then store the module record. `none` is
fuel exhaustion (the Rust code would still be recursing). -/
def addModule : Nat → Env → PackageBuilder → ModuleId → Path → List String →
    List Item → Option (List Attribute) → Visibility →
    Option (Except Error (ModuleId × PackageBuilder))
  | 0, _, _, _, _, _, _, _, _ => none
  | Nat.succ fuel, env, st, parent, path, internalPath, items, attributes,
      visibility =>
    let id := st.next_module_id
    let st1 : PackageBuilder := ⟨id + 1, st.files_to_ids, st.modules⟩
    let st2 : PackageBuilder := if internalPath.length = 1
      then ⟨st1.next_module_id, insertA st1.files_to_ids path id, st1.modules⟩
      else st1
    match exploreSubmodules fuel env st2 items id path internalPath with
    | none => none
    | some (Except.error e) => some (Except.error e)
    | some (Except.ok (subs, st3)) =>
        some (Except.ok (id, ⟨st3.next_module_id, st3.files_to_ids,
          insertA st3.modules id
            ⟨path, internalPath, visibility, subs, parent, items, attributes⟩⟩))

/-- `PackageBuilder::explore_submodules` (`files.rs` lines 178-253): walk the
items in order; for an inline module recurse on its body with the same path;
for a declared-only module resolve the file with `resolveModFile` (skipping
the declaration when the current path has no file name), read and parse it,
and recurse on its contents; collect the child identifiers in textual order,
aborting on the first error. -/
def exploreSubmodules : Nat → Env → PackageBuilder → List Item → ModuleId →
    Path → List String → Option (Except Error (List ModuleId × PackageBuilder))
  | 0, _, _, _, _, _, _ => none
  | Nat.succ fuel, env, st, items, parent, path, internalPath =>
    match items with
    | [] => some (Except.ok ([], st))
    | Item.other _ :: rest =>
        exploreSubmodules fuel env st rest parent path internalPath
    | Item.mod vis ident content :: rest =>
      match content with
      | some bodyItems =>
        match addModule fuel env st parent path (internalPath ++ [ident])
            bodyItems none vis with
        | none => none
        | some (Except.error e) => some (Except.error e)
        | some (Except.ok (cid, stA)) =>
          match exploreSubmodules fuel env stA rest parent path internalPath with
          | none => none
          | some (Except.error e) => some (Except.error e)
          | some (Except.ok (subs, stB)) =>
              some (Except.ok (cid :: subs, stB))
      | none =>
        match resolveModFile env.pathExists path (internalPath ++ [ident]) with
        | none => exploreSubmodules fuel env st rest parent path internalPath
        | some resolved =>
          match env.read resolved with
          | Except.error e => some (Except.error (Error.IoError resolved e))
          | Except.ok content =>
            match env.parse content with
            | Except.error e => some (Except.error (Error.Syn e))
            | Except.ok pf =>
              match addModule fuel env st parent resolved [ident] pf.items
                  (some pf.attrs) vis with
              | none => none
              | some (Except.error e) => some (Except.error e)
              | some (Except.ok (cid, stA)) =>
                match exploreSubmodules fuel env stA rest parent path
                    internalPath with
                | none => none
                | some (Except.error e) => some (Except.error e)
                | some (Except.ok (subs, stB)) =>
                    some (Except.ok (cid :: subs, stB))
end

/-- `Package::from_root_file` (`files.rs` lines 85-108): read and parse the
root file, then build the root module with the `crate` sentinel internal
path, public visibility, and its own about-to-be-allocated identifier as its
parent. -/
def from_root_file (fuel : Nat) (env : Env) (path : Path) :
    Option (Except Error Package) :=
  match env.read path with
  | Except.error e => some (Except.error (Error.IoError path e))
  | Except.ok content =>
    match env.parse content with
    | Except.error e => some (Except.error (Error.Syn e))
    | Except.ok file =>
      let builder : PackageBuilder := ⟨0, [], []⟩
      match addModule fuel env builder builder.next_module_id path ["crate"]
          file.items (some file.attrs) Visibility.pub with
      | none => none
      | some (Except.error e) => some (Except.error e)
      | some (Except.ok (rootId, b)) =>
          some (Except.ok ⟨rootId, b.files_to_ids, b.modules⟩)

/-- Facts established by a successful `addModule` call. -/
structure AddOut (st st' : PackageBuilder) (parent : ModuleId) (path : Path)
    (ip : List String) (items : List Item) (attrs : Option (List Attribute))
    (vis : Visibility) (idr : ModuleId) : Prop where
  idEq : idr = st.next_module_id
  nextLt : st.next_module_id < st'.next_module_id
  pres : ∀ k, k < st.next_module_id →
    lookupA st'.modules k = lookupA st.modules k
  newKeys : ∀ k m, lookupA st'.modules k = some m →
    lookupA st.modules k = some m ∨
      (st.next_module_id ≤ k ∧ k < st'.next_module_id)
  fGrow : ∀ p, (lookupA st.files_to_ids p).isSome = true →
    (lookupA st'.files_to_ids p).isSome = true
  record : ∃ subs, lookupA st'.modules idr =
      some ⟨path, ip, vis, subs, parent, items, attrs⟩ ∧
    ∀ c ∈ subs, idr < c ∧ c < st'.next_module_id

/-- Facts established by a successful `exploreSubmodules` call. -/
structure ExpOut (st st' : PackageBuilder) (subs : List ModuleId) : Prop where
  nextLe : st.next_module_id ≤ st'.next_module_id
  pres : ∀ k, k < st.next_module_id →
    lookupA st'.modules k = lookupA st.modules k
  newKeys : ∀ k m, lookupA st'.modules k = some m →
    lookupA st.modules k = some m ∨
      (st.next_module_id ≤ k ∧ k < st'.next_module_id)
  fGrow : ∀ p, (lookupA st.files_to_ids p).isSome = true →
    (lookupA st'.files_to_ids p).isSome = true
  subsBound : ∀ c ∈ subs, st.next_module_id ≤ c ∧ c < st'.next_module_id


/-- An error value is sound for an environment when an I/O error carries
exactly a path whose read failed with that message, and a syntax error
carries exactly a parser diagnostic produced on some read content. -/
def ErrSound (env : Env) (e : Error) : Prop :=
  (∀ p msg, e = Error.IoError p msg → env.read p = Except.error msg) ∧
  (∀ s, e = Error.Syn s → ∃ c, env.parse c = Except.error s)

/-- The module declarations that `explore_submodules` turns into children,
in textual order: every inline module item, and — when the current file has
a final name component (`hasName`) — every declared-only module item; all
other items contribute nothing. Each entry records the declaration's
visibility, identifier and optional inline body. -/
def modDecls (hasName : Bool) :
    List Item → List (Visibility × String × Option (List Item))
  | [] => []
  | Item.mod vis ident (some body) :: rest =>
      (vis, ident, some body) :: modDecls hasName rest
  | Item.mod vis ident none :: rest =>
      if hasName then (vis, ident, none) :: modDecls hasName rest
      else modDecls hasName rest
  | Item.other _ :: rest => modDecls hasName rest

/-- A child identifier is realized in a builder state by the declaration `d`
when a module is stored under it whose internal path ends in the declared
name. -/
def ChildNamed (st : PackageBuilder) (c : ModuleId)
    (d : Visibility × String × Option (List Item)) : Prop :=
  ∃ m2, lookupA st.modules c = some m2 ∧
    m2.internal_path.getLast? = some d.2.1

/-- Invariants maintained by the builder state across the recursion. -/
structure BInv (st : PackageBuilder) : Prop where
  below : ∀ k m, lookupA st.modules k = some m → k < st.next_module_id
  nodup : (st.modules.map Prod.fst).Nodup
  attrsIff : ∀ k m, lookupA st.modules k = some m →
    (m.attributes.isSome = true ↔ m.internal_path.length = 1)
  subsGt : ∀ k m, lookupA st.modules k = some m →
    ∀ c ∈ m.submodules, k < c
  filesCover : ∀ k m, lookupA st.modules k = some m →
    m.internal_path.length = 1 →
    (lookupA st.files_to_ids m.file).isSome = true
  subsNames : ∀ k m, lookupA st.modules k = some m →
    List.Forall₂ (ChildNamed st) m.submodules
      (modDecls m.file.getLast?.isSome m.items)

/-- The empty builder state, as built by `PackageBuilder::default()`. -/
def emptyBuilder : PackageBuilder := ⟨0, [], []⟩

/-- The candidate nested directory of the declared-only path inference: the
base directory (parent directory when the current file name is an index file
`mod.rs`/`lib.rs`, the extension-stripped path otherwise) extended with every
internal-path segment past the leading root sentinel. -/
def candidateDir (path : Path) (last : String) (ip2 : List String) : Path :=
  (if last = "mod.rs" ∨ last = "lib.rs"
    then path.dropLast else setExtension path "") ++ ip2.drop 1

/-! ### Concrete scenario environments used by witnesses and counterexamples -/

/-- Items of the scenario root file: a declared-only `mod a;` (whose directory
holds an index file), an inline `mod b` containing a declared-only `mod c;`,
and a non-module item. -/
def rootRest : List Item :=
  [Item.mod Visibility.inherited "b"
    (some [Item.other "fn", Item.mod Visibility.pub "c" none]),
   Item.other "use"]

def rootItems : List Item := Item.mod Visibility.pub "a" none :: rootRest

/-- Scenario environment: `lib.rs` at the root, `a/mod.rs` (index file
present), `b/c.rs` for the nested declared-only module. -/
def envFull : Env where
  read p :=
    if p = ["lib.rs"] then Except.ok "LIB"
    else if p = ["a", "mod.rs"] then Except.ok "AM"
    else if p = ["b", "c.rs"] then Except.ok "C"
    else Except.error "missing"
  parse s :=
    if s = "LIB" then Except.ok ⟨rootItems, ["doc"]⟩
    else if s = "AM" then Except.ok ⟨[], []⟩
    else if s = "C" then Except.ok ⟨[], ["cattr"]⟩
    else Except.error "syntax"
  pathExists p := p = ["a", "mod.rs"]

def pkgFull : Package :=
  match from_root_file 10 envFull ["lib.rs"] with
  | some (Except.ok p) => p
  | _ => ⟨0, [], []⟩

/-- The builder state right after the root module's identifier is allocated
and its file registered, as `add_module` hands it to `explore_submodules`. -/
def stFullRoot : PackageBuilder := ⟨1, [(["lib.rs"], 0)], []⟩

def stFullPre : PackageBuilder :=
  match exploreSubmodules 9 envFull stFullRoot rootItems 0 ["lib.rs"]
      ["crate"] with
  | some (Except.ok r) => r.2
  | _ => ⟨0, [], []⟩

/-- Duplicate-declaration environment: the root declares `mod a;` twice and
both resolve to the same sibling file `a.rs` (syntactically legal input; the
parser model returns the two identical declarations in order). -/
def envDup : Env where
  read p :=
    if p = ["lib.rs"] then Except.ok "L"
    else if p = ["a.rs"] then Except.ok "A"
    else Except.error "missing"
  parse s :=
    if s = "L" then Except.ok ⟨[Item.mod Visibility.inherited "a" none,
      Item.mod Visibility.inherited "a" none], []⟩
    else if s = "A" then Except.ok ⟨[], []⟩
    else Except.error "syntax"
  pathExists _ := false

def pkgDup : Package :=
  match from_root_file 10 envDup ["lib.rs"] with
  | some (Except.ok p) => p
  | _ => ⟨0, [], []⟩

/-- Environment whose root path has no final name component (the empty
component list) yet is readable in the model, and whose root declares
`mod a;`. -/
def envSkip : Env where
  read p := if p = [] then Except.ok "R" else Except.error "missing"
  parse s :=
    if s = "R" then Except.ok ⟨[Item.mod Visibility.inherited "a" none], []⟩
    else Except.error "syntax"
  pathExists _ := false

def pkgSkip : Package :=
  match from_root_file 10 envSkip [] with
  | some (Except.ok p) => p
  | _ => ⟨0, [], []⟩

/-- The record stored for the inline module `b` of the scenario package. -/
def mFullB : Module :=
  ⟨["lib.rs"], ["crate", "b"], Visibility.inherited, [3], 0,
   [Item.other "fn", Item.mod Visibility.pub "c" none], none⟩

/-- The record stored for the root module of the scenario package. -/
def mFullRoot : Module :=
  ⟨["lib.rs"], ["crate"], Visibility.pub, [1, 2], 0, rootItems,
   some ["doc"]⟩

/-- The record stored for the first of the two duplicate `mod a;` children. -/
def mDup1 : Module :=
  ⟨["a.rs"], ["a"], Visibility.inherited, [], 0, [], some []⟩

/-- Environment in which every read fails. -/
def envMiss : Env where
  read _ := Except.error "missing"
  parse _ := Except.error "syntax"
  pathExists _ := false

/-- Environment in which the root file reads fine but never parses. -/
def envSyn : Env where
  read p :=
    if p = ["lib.rs"] then Except.ok "X" else Except.error "missing"
  parse _ := Except.error "oops"
  pathExists _ := false

/-- Scenario E environment: the root `lib.rs` parses to a single `mod a;`
declaration, but the referenced sibling file `a.rs` is missing. -/
def envScenE : Env where
  read p :=
    if p = ["lib.rs"] then Except.ok "L" else Except.error "missing"
  parse s :=
    if s = "L" then Except.ok ⟨[Item.mod Visibility.inherited "a" none], []⟩
    else Except.error "syntax"
  pathExists _ := false



/-! ### Association-map lemmas -/

theorem lookupA_insertA {α β : Type} [DecidableEq α] (l : List (α × β))
    (k q : α) (v : β) :
    lookupA (insertA l k v) q = if q = k then some v else lookupA l q := by
  induction l with
  | nil =>
    by_cases h : q = k
    · simp [insertA, lookupA, h]
    · simp only [insertA, lookupA, if_neg h,
        if_neg (fun h2 : k = q => h h2.symm)]
  | cons hd tl ih =>
    obtain ⟨kk, vv⟩ := hd
    by_cases hk : kk = k
    · subst hk
      by_cases hq : q = kk
      · simp [insertA, lookupA, hq]
      · simp only [insertA, if_pos rfl, lookupA, if_neg hq,
          if_neg (fun h2 : kk = q => hq h2.symm)]
    · by_cases hq : kk = q
      · subst hq
        simp only [insertA, if_neg hk, lookupA, if_pos rfl, if_true,
          if_neg (fun h2 : kk = k => hk h2)]
      · simp [insertA, lookupA, hk, hq, ih]

theorem lookupA_insertA_self {α β : Type} [DecidableEq α] (l : List (α × β))
    (k : α) (v : β) : lookupA (insertA l k v) k = some v := by
  simp [lookupA_insertA]

theorem lookupA_insertA_isSome {α β : Type} [DecidableEq α] (l : List (α × β))
    (k q : α) (v : β) (h : (lookupA l q).isSome = true) :
    (lookupA (insertA l k v) q).isSome = true := by
  rw [lookupA_insertA]
  by_cases hq : q = k <;> simp [hq, h]

theorem lookupA_eq_none_of_not_mem {α β : Type} [DecidableEq α]
    (l : List (α × β)) (k : α) (h : ∀ v, lookupA l k ≠ some v) :
    ¬ k ∈ l.map Prod.fst := by
  induction l with
  | nil => simp
  | cons hd tl ih =>
    obtain ⟨kk, vv⟩ := hd
    by_cases hk : kk = k
    · exact absurd (by simp [lookupA, hk]) (h vv)
    · intro hmem
      rcases List.mem_cons.mp hmem with h1 | h1
      · exact hk h1.symm
      · exact ih (fun v hv => h v (by simpa [lookupA, hk] using hv)) h1

theorem insertA_of_lookup_none {α β : Type} [DecidableEq α]
    (l : List (α × β)) (k : α) (v : β) (h : lookupA l k = none) :
    insertA l k v = l ++ [(k, v)] := by
  induction l with
  | nil => simp [insertA]
  | cons hd tl ih =>
    obtain ⟨kk, vv⟩ := hd
    by_cases hk : kk = k
    · simp [lookupA, hk] at h
    · simp only [lookupA, if_neg hk] at h
      simp [insertA, hk, ih h]

/-! ### Unfolding equations for the builder -/

theorem addModule_succ (fuel : Nat) (env : Env) (st : PackageBuilder)
    (parent : ModuleId) (path : Path) (ip : List String) (items : List Item)
    (attrs : Option (List Attribute)) (vis : Visibility) :
    addModule (fuel + 1) env st parent path ip items attrs vis =
      match exploreSubmodules fuel env
          (if ip.length = 1
            then ⟨st.next_module_id + 1,
              insertA st.files_to_ids path st.next_module_id, st.modules⟩
            else ⟨st.next_module_id + 1, st.files_to_ids, st.modules⟩)
          items st.next_module_id path ip with
      | none => none
      | some (Except.error e) => some (Except.error e)
      | some (Except.ok (subs, st3)) =>
          some (Except.ok (st.next_module_id, ⟨st3.next_module_id,
            st3.files_to_ids,
            insertA st3.modules st.next_module_id
              ⟨path, ip, vis, subs, parent, items, attrs⟩⟩)) := rfl

theorem explore_nil (fuel : Nat) (env : Env) (st : PackageBuilder)
    (parent : ModuleId) (path : Path) (ip : List String) :
    exploreSubmodules (fuel + 1) env st [] parent path ip =
      some (Except.ok ([], st)) := rfl

theorem explore_other (fuel : Nat) (env : Env) (st : PackageBuilder)
    (s : String) (rest : List Item) (parent : ModuleId) (path : Path)
    (ip : List String) :
    exploreSubmodules (fuel + 1) env st (Item.other s :: rest) parent path ip =
      exploreSubmodules fuel env st rest parent path ip := rfl

theorem explore_inline (fuel : Nat) (env : Env) (st : PackageBuilder)
    (vis : Visibility) (ident : String) (body : List Item) (rest : List Item)
    (parent : ModuleId) (path : Path) (ip : List String) :
    exploreSubmodules (fuel + 1) env st
        (Item.mod vis ident (some body) :: rest) parent path ip =
      match addModule fuel env st parent path (ip ++ [ident]) body none vis with
      | none => none
      | some (Except.error e) => some (Except.error e)
      | some (Except.ok (cid, stA)) =>
        match exploreSubmodules fuel env stA rest parent path ip with
        | none => none
        | some (Except.error e) => some (Except.error e)
        | some (Except.ok (subs, stB)) => some (Except.ok (cid :: subs, stB)) :=
  rfl

theorem explore_declared (fuel : Nat) (env : Env) (st : PackageBuilder)
    (vis : Visibility) (ident : String) (rest : List Item) (parent : ModuleId)
    (path : Path) (ip : List String) :
    exploreSubmodules (fuel + 1) env st (Item.mod vis ident none :: rest)
        parent path ip =
      match resolveModFile env.pathExists path (ip ++ [ident]) with
      | none => exploreSubmodules fuel env st rest parent path ip
      | some resolved =>
        match env.read resolved with
        | Except.error e => some (Except.error (Error.IoError resolved e))
        | Except.ok content =>
          match env.parse content with
          | Except.error e => some (Except.error (Error.Syn e))
          | Except.ok pf =>
            match addModule fuel env st parent resolved [ident] pf.items
                (some pf.attrs) vis with
            | none => none
            | some (Except.error e) => some (Except.error e)
            | some (Except.ok (cid, stA)) =>
              match exploreSubmodules fuel env stA rest parent path ip with
              | none => none
              | some (Except.error e) => some (Except.error e)
              | some (Except.ok (subs, stB)) =>
                  some (Except.ok (cid :: subs, stB)) := rfl

/-- Once the declared-only path inference has produced a file, the
exploration step is the read/parse/recurse pipeline on that file
(`files.rs` lines 234-246). -/
theorem explore_declared_resolved (fuel : Nat) (env : Env)
    (st : PackageBuilder) (vis : Visibility) (ident : String)
    (rest : List Item) (parent : ModuleId) (path : Path) (ip : List String)
    (resolved : Path)
    (hres : resolveModFile env.pathExists path (ip ++ [ident]) =
      some resolved) :
    exploreSubmodules (fuel + 1) env st (Item.mod vis ident none :: rest)
        parent path ip =
      match env.read resolved with
      | Except.error e => some (Except.error (Error.IoError resolved e))
      | Except.ok content =>
        match env.parse content with
        | Except.error e => some (Except.error (Error.Syn e))
        | Except.ok pf =>
          match addModule fuel env st parent resolved [ident] pf.items
              (some pf.attrs) vis with
          | none => none
          | some (Except.error e) => some (Except.error e)
          | some (Except.ok (cid, stA)) =>
            match exploreSubmodules fuel env stA rest parent path ip with
            | none => none
            | some (Except.error e) => some (Except.error e)
            | some (Except.ok (subs, stB)) =>
                some (Except.ok (cid :: subs, stB)) := by
  rw [explore_declared, hres]

/-- After an inline child has been added successfully, the exploration of
the declaring item list continues with the remaining siblings on the child's
output state. -/
theorem explore_inline_ok (fuel : Nat) (env : Env) (st : PackageBuilder)
    (vis : Visibility) (ident : String) (body : List Item) (rest : List Item)
    (parent : ModuleId) (path : Path) (ip : List String) (cid : ModuleId)
    (stA : PackageBuilder)
    (hadd : addModule fuel env st parent path (ip ++ [ident]) body none vis =
      some (Except.ok (cid, stA))) :
    exploreSubmodules (fuel + 1) env st
        (Item.mod vis ident (some body) :: rest) parent path ip =
      match exploreSubmodules fuel env stA rest parent path ip with
      | none => none
      | some (Except.error e) => some (Except.error e)
      | some (Except.ok (subs, stB)) =>
          some (Except.ok (cid :: subs, stB)) := by
  rw [explore_inline, hadd]

/-- After a declared-only child has been resolved, read, parsed and added
successfully, the exploration continues with the remaining siblings on the
child's output state. -/
theorem explore_declared_ok (fuel : Nat) (env : Env) (st : PackageBuilder)
    (vis : Visibility) (ident : String) (rest : List Item)
    (parent : ModuleId) (path : Path) (ip : List String) (resolved : Path)
    (content : String) (pf : ParsedFile) (cid : ModuleId)
    (stA : PackageBuilder)
    (hres : resolveModFile env.pathExists path (ip ++ [ident]) =
      some resolved)
    (hread : env.read resolved = Except.ok content)
    (hparse : env.parse content = Except.ok pf)
    (hadd : addModule fuel env st parent resolved [ident] pf.items
      (some pf.attrs) vis = some (Except.ok (cid, stA))) :
    exploreSubmodules (fuel + 1) env st (Item.mod vis ident none :: rest)
        parent path ip =
      match exploreSubmodules fuel env stA rest parent path ip with
      | none => none
      | some (Except.error e) => some (Except.error e)
      | some (Except.ok (subs, stB)) =>
          some (Except.ok (cid :: subs, stB)) := by
  rw [explore_declared_resolved fuel env st vis ident rest parent path ip
    resolved hres]
  simp only [hread, hparse, hadd]

/-! ### Core state lemma: what a successful build step does to the builder -/

theorem ExpOut.refl (st : PackageBuilder) : ExpOut st st [] where
  nextLe := le_refl _
  pres := fun _ _ => rfl
  newKeys := fun _ _ h => Or.inl h
  fGrow := fun _ h => h
  subsBound := fun _ hc => absurd hc (List.not_mem_nil _)

/-- Composing a child `addModule` step with the exploration of the remaining
siblings. -/
theorem ExpOut.consStep {st stA stB : PackageBuilder} {parent : ModuleId}
    {path2 : Path} {ip2 : List String} {items2 : List Item}
    {attrs2 : Option (List Attribute)} {vis2 : Visibility} {cid : ModuleId}
    {subs : List ModuleId}
    (h1 : AddOut st stA parent path2 ip2 items2 attrs2 vis2 cid)
    (h2 : ExpOut stA stB subs) : ExpOut st stB (cid :: subs) where
  nextLe := le_trans (le_of_lt h1.nextLt) h2.nextLe
  pres := fun k hk => by
    rw [h2.pres k (lt_trans hk h1.nextLt), h1.pres k hk]
  newKeys := fun k m h => by
    rcases h2.newKeys k m h with h3 | h3
    · rcases h1.newKeys k m h3 with h4 | h4
      · exact Or.inl h4
      · exact Or.inr ⟨h4.1, lt_of_lt_of_le h4.2 h2.nextLe⟩
    · exact Or.inr ⟨le_trans (le_of_lt h1.nextLt) h3.1, h3.2⟩
  fGrow := fun p hp => h2.fGrow p (h1.fGrow p hp)
  subsBound := fun c hc => by
    rcases List.mem_cons.mp hc with h3 | h3
    · subst h3
      exact ⟨le_of_eq h1.idEq.symm,
        lt_of_lt_of_le (h1.idEq ▸ h1.nextLt) h2.nextLe⟩
    · exact ⟨le_trans (le_of_lt h1.nextLt) (h2.subsBound c h3).1,
        (h2.subsBound c h3).2⟩

theorem coreAux : ∀ fuel : Nat,
    (∀ env st parent path ip items attrs vis idr st',
      addModule fuel env st parent path ip items attrs vis =
        some (Except.ok (idr, st')) →
      AddOut st st' parent path ip items attrs vis idr) ∧
    (∀ env st items parent path ip subs st',
      exploreSubmodules fuel env st items parent path ip =
        some (Except.ok (subs, st')) →
      ExpOut st st' subs) := by
  intro fuel
  induction fuel with
  | zero =>
    constructor
    · intro env st parent path ip items attrs vis idr st' h
      exact Option.noConfusion h
    · intro env st items parent path ip subs st' h
      exact Option.noConfusion h
  | succ n ih =>
    obtain ⟨ihA, ihE⟩ := ih
    constructor
    · intro env st parent path ip items attrs vis idr st' h
      rw [addModule_succ] at h
      obtain ⟨F, hF, hFgrow⟩ : ∃ F,
          (if ip.length = 1
            then (⟨st.next_module_id + 1,
              insertA st.files_to_ids path st.next_module_id,
              st.modules⟩ : PackageBuilder)
            else ⟨st.next_module_id + 1, st.files_to_ids, st.modules⟩) =
            (⟨st.next_module_id + 1, F, st.modules⟩ : PackageBuilder) ∧
          ∀ p, (lookupA st.files_to_ids p).isSome = true →
            (lookupA F p).isSome = true := by
        split
        · exact ⟨insertA st.files_to_ids path st.next_module_id, rfl,
            fun p hp => lookupA_insertA_isSome _ _ _ _ hp⟩
        · exact ⟨st.files_to_ids, rfl, fun p hp => hp⟩
      rw [hF] at h
      split at h
      · exact Option.noConfusion h
      · exact Except.noConfusion (Option.some.inj h)
      · rename_i pr subs st3 hex
        simp only [Option.some.injEq, Except.ok.injEq, Prod.mk.injEq] at h
        obtain ⟨hid, hst⟩ := h
        subst hid
        subst hst
        have hexp := ihE env ⟨st.next_module_id + 1, F, st.modules⟩ items
          st.next_module_id path ip subs st3 hex
        have hle : st.next_module_id + 1 ≤ st3.next_module_id := hexp.nextLe
        refine ⟨rfl, ?_, ?_, ?_, ?_, ?_⟩
        · show st.next_module_id < st3.next_module_id
          exact Nat.lt_of_lt_of_le (Nat.lt_succ_self _) hle
        · intro k hk
          show lookupA (insertA st3.modules st.next_module_id
            ⟨path, ip, vis, subs, parent, items, attrs⟩) k =
            lookupA st.modules k
          rw [lookupA_insertA, if_neg (Nat.ne_of_lt hk)]
          have hp3 : lookupA st3.modules k =
              lookupA (⟨st.next_module_id + 1, F, st.modules⟩ :
                PackageBuilder).modules k :=
            hexp.pres k (Nat.lt_succ_of_lt hk)
          exact hp3
        · intro k m hkm
          have hkm2 : lookupA (insertA st3.modules st.next_module_id
              ⟨path, ip, vis, subs, parent, items, attrs⟩) k = some m := hkm
          rw [lookupA_insertA] at hkm2
          by_cases hkid : k = st.next_module_id
          · refine Or.inr ⟨le_of_eq hkid.symm, ?_⟩
            show k < st3.next_module_id
            exact hkid ▸ Nat.lt_of_succ_le hle
          · rw [if_neg hkid] at hkm2
            rcases hexp.newKeys k m hkm2 with h3 | h3
            · exact Or.inl h3
            · have h4 : st.next_module_id + 1 ≤ k := h3.1
              have h5 : k < st3.next_module_id := h3.2
              exact Or.inr ⟨Nat.le_of_succ_le h4, h5⟩
        · intro p hp
          exact hexp.fGrow p (hFgrow p hp)
        · refine ⟨subs, lookupA_insertA_self _ _ _, fun c hc => ?_⟩
          have h4 : st.next_module_id + 1 ≤ c := (hexp.subsBound c hc).1
          have h5 : c < st3.next_module_id := (hexp.subsBound c hc).2
          exact ⟨h4, h5⟩
    · intro env st items parent path ip subs st' h
      match items with
      | [] =>
        rw [explore_nil] at h
        simp only [Option.some.injEq, Except.ok.injEq, Prod.mk.injEq] at h
        obtain ⟨h1, h2⟩ := h
        subst h1
        subst h2
        exact ExpOut.refl st
      | Item.other s :: rest =>
        rw [explore_other] at h
        exact ihE env st rest parent path ip subs st' h
      | Item.mod vis ident (some body) :: rest =>
        rw [explore_inline] at h
        split at h
        · exact Option.noConfusion h
        · exact Except.noConfusion (Option.some.inj h)
        · rename_i pr cid stA hadd
          split at h
          · exact Option.noConfusion h
          · exact Except.noConfusion (Option.some.inj h)
          · rename_i pr2 subs2 stB hrest
            simp only [Option.some.injEq, Except.ok.injEq, Prod.mk.injEq] at h
            obtain ⟨h1, h2⟩ := h
            subst h1
            subst h2
            exact ExpOut.consStep
              (ihA env st parent path (ip ++ [ident]) body none vis cid
                stA hadd)
              (ihE env stA rest parent path ip subs2 stB hrest)
      | Item.mod vis ident none :: rest =>
        rw [explore_declared] at h
        split at h
        · rename_i hres
          exact ihE env st rest parent path ip subs st' h
        · rename_i resolved hres
          split at h
          · exact Except.noConfusion (Option.some.inj h)
          · rename_i content hread
            split at h
            · exact Except.noConfusion (Option.some.inj h)
            · rename_i pf hparse
              split at h
              · exact Option.noConfusion h
              · exact Except.noConfusion (Option.some.inj h)
              · rename_i pr cid stA hadd
                split at h
                · exact Option.noConfusion h
                · exact Except.noConfusion (Option.some.inj h)
                · rename_i pr2 subs2 stB hrest
                  simp only [Option.some.injEq, Except.ok.injEq,
                    Prod.mk.injEq] at h
                  obtain ⟨h1, h2⟩ := h
                  subst h1
                  subst h2
                  exact ExpOut.consStep
                    (ihA env st parent resolved [ident] pf.items
                      (some pf.attrs) vis cid stA hadd)
                    (ihE env stA rest parent path ip subs2 stB hrest)

/-- Every successful `addModule` call satisfies `AddOut`. -/
theorem addModule_out {fuel : Nat} {env : Env} {st : PackageBuilder}
    {parent : ModuleId} {path : Path} {ip : List String} {items : List Item}
    {attrs : Option (List Attribute)} {vis : Visibility} {idr : ModuleId}
    {st' : PackageBuilder}
    (h : addModule fuel env st parent path ip items attrs vis =
      some (Except.ok (idr, st'))) :
    AddOut st st' parent path ip items attrs vis idr :=
  (coreAux fuel).1 env st parent path ip items attrs vis idr st' h

/-- Every successful `exploreSubmodules` call satisfies `ExpOut`. -/
theorem exploreSubmodules_out {fuel : Nat} {env : Env} {st : PackageBuilder}
    {items : List Item} {parent : ModuleId} {path : Path} {ip : List String}
    {subs : List ModuleId} {st' : PackageBuilder}
    (h : exploreSubmodules fuel env st items parent path ip =
      some (Except.ok (subs, st'))) :
    ExpOut st st' subs :=
  (coreAux fuel).2 env st items parent path ip subs st' h

/-! ### Error soundness: every surfaced error comes from a failed read or
a failed parse, carrying exactly the failing data -/

theorem errAux : ∀ fuel : Nat,
    (∀ env st parent path ip items attrs vis e,
      addModule fuel env st parent path ip items attrs vis =
        some (Except.error e) → ErrSound env e) ∧
    (∀ env st items parent path ip e,
      exploreSubmodules fuel env st items parent path ip =
        some (Except.error e) → ErrSound env e) := by
  intro fuel
  induction fuel with
  | zero =>
    constructor
    · intro env st parent path ip items attrs vis e h
      exact Option.noConfusion h
    · intro env st items parent path ip e h
      exact Option.noConfusion h
  | succ n ih =>
    obtain ⟨ihA, ihE⟩ := ih
    constructor
    · intro env st parent path ip items attrs vis e h
      rw [addModule_succ] at h
      split at h
      · exact Option.noConfusion h
      · rename_i e2 hex
        have h2 := Option.some.inj h
        injection h2 with h3
        subst h3
        exact ihE _ _ _ _ _ _ _ hex
      · exact Except.noConfusion (Option.some.inj h)
    · intro env st items parent path ip e h
      match items with
      | [] =>
        rw [explore_nil] at h
        exact Except.noConfusion (Option.some.inj h)
      | Item.other s :: rest =>
        rw [explore_other] at h
        exact ihE _ _ _ _ _ _ _ h
      | Item.mod vis ident (some body) :: rest =>
        rw [explore_inline] at h
        split at h
        · exact Option.noConfusion h
        · rename_i e2 hadd
          have h2 := Option.some.inj h
          injection h2 with h3
          subst h3
          exact ihA _ _ _ _ _ _ _ _ _ hadd
        · rename_i pr cid stA hadd
          split at h
          · exact Option.noConfusion h
          · rename_i e2 hrest
            have h2 := Option.some.inj h
            injection h2 with h3
            subst h3
            exact ihE _ _ _ _ _ _ _ hrest
          · exact Except.noConfusion (Option.some.inj h)
      | Item.mod vis ident none :: rest =>
        rw [explore_declared] at h
        split at h
        · exact ihE _ _ _ _ _ _ _ h
        · rename_i resolved hres
          split at h
          · rename_i e2 hread
            have h2 := Option.some.inj h
            injection h2 with h3
            subst h3
            refine ⟨?_, ?_⟩
            · intro p msg hpe
              injection hpe with h4 h5
              subst h4
              subst h5
              exact hread
            · intro s hs
              exact Error.noConfusion hs
          · rename_i content hread
            split at h
            · rename_i e2 hparse
              have h2 := Option.some.inj h
              injection h2 with h3
              subst h3
              refine ⟨?_, ?_⟩
              · intro p msg hpe
                exact Error.noConfusion hpe
              · intro s hs
                injection hs with h4
                subst h4
                exact ⟨content, hparse⟩
            · rename_i pf hparse
              split at h
              · exact Option.noConfusion h
              · rename_i e2 hadd
                have h2 := Option.some.inj h
                injection h2 with h3
                subst h3
                exact ihA _ _ _ _ _ _ _ _ _ hadd
              · rename_i pr cid stA hadd
                split at h
                · exact Option.noConfusion h
                · rename_i e2 hrest
                  have h2 := Option.some.inj h
                  injection h2 with h3
                  subst h3
                  exact ihE _ _ _ _ _ _ _ hrest
                · exact Except.noConfusion (Option.some.inj h)

/-! ### Helper lemmas for the invariant proof -/

theorem resolveModFile_getLast_none {ex : Path → Bool} {path : Path}
    {ip : List String} (h : resolveModFile ex path ip = none) :
    path.getLast? = none := by
  cases hl : path.getLast? with
  | none => rfl
  | some last =>
    simp only [resolveModFile, hl] at h
    split at h <;> (split at h <;> exact Option.noConfusion h)

theorem resolveModFile_getLast_isSome {ex : Path → Bool} {path : Path}
    {ip : List String} {r : Path} (h : resolveModFile ex path ip = some r) :
    path.getLast?.isSome = true := by
  cases hl : path.getLast? with
  | none =>
    simp only [resolveModFile, hl] at h
    exact Option.noConfusion h
  | some last => rfl

theorem getLast_concat {α : Type} (l : List α) (a : α) :
    (l ++ [a]).getLast? = some a :=
  (List.getLast?_append_cons l a []).trans rfl

theorem concat_length_ne_one {α : Type} (l : List α) (a : α) (hl : l ≠ []) :
    ¬ (l ++ [a]).length = 1 := by
  rcases l with _ | ⟨b, t⟩
  · exact absurd rfl hl
  · intro hlen
    rw [List.length_append] at hlen
    simp at hlen

theorem ChildNamed.mono {st st' : PackageBuilder}
    (hbelow : ∀ k m, lookupA st.modules k = some m → k < st.next_module_id)
    (hpres : ∀ k, k < st.next_module_id →
      lookupA st'.modules k = lookupA st.modules k)
    {c : ModuleId} {d : Visibility × String × Option (List Item)}
    (h : ChildNamed st c d) : ChildNamed st' c d := by
  obtain ⟨m2, h1, h2⟩ := h
  refine ⟨m2, ?_, h2⟩
  rw [hpres c (hbelow c m2 h1)]
  exact h1

theorem ChildNamed.insertMono {st3 : PackageBuilder} {id2 : ModuleId}
    {rec : Module} (hid : lookupA st3.modules id2 = none)
    {nx : ModuleId} {fl : List (Path × ModuleId)} {c : ModuleId}
    {d : Visibility × String × Option (List Item)}
    (h : ChildNamed st3 c d) :
    ChildNamed ⟨nx, fl, insertA st3.modules id2 rec⟩ c d := by
  obtain ⟨m2, h1, h2⟩ := h
  refine ⟨m2, ?_, h2⟩
  have hcne : ¬ c = id2 := by
    intro hc
    rw [hc, hid] at h1
    exact Option.noConfusion h1
  show lookupA (insertA st3.modules id2 rec) c = some m2
  rw [lookupA_insertA, if_neg hcne]
  exact h1

/-! ### Invariant lemma: the builder maintains `BInv`, files entries point at
file-root modules, and parents precede children -/

theorem invAux : ∀ fuel : Nat,
    (∀ env st parent path ip items attrs vis idr st',
      addModule fuel env st parent path ip items attrs vis =
        some (Except.ok (idr, st')) →
      BInv st → ip ≠ [] → (attrs.isSome = true ↔ ip.length = 1) →
      parent ≤ st.next_module_id →
      BInv st' ∧
      (∀ p k, lookupA st'.files_to_ids p = some k →
        lookupA st.files_to_ids p = some k ∨
        ∃ m, lookupA st'.modules k = some m ∧ m.file = p ∧
          m.internal_path.length = 1) ∧
      (∀ k m, lookupA st'.modules k = some m →
        lookupA st.modules k = some m ∨ m.parent < k ∨
        (k = st.next_module_id ∧ m.parent = parent))) ∧
    (∀ env st items parent path ip subs st',
      exploreSubmodules fuel env st items parent path ip =
        some (Except.ok (subs, st')) →
      BInv st → ip ≠ [] → parent < st.next_module_id →
      BInv st' ∧
      (∀ p k, lookupA st'.files_to_ids p = some k →
        lookupA st.files_to_ids p = some k ∨
        ∃ m, lookupA st'.modules k = some m ∧ m.file = p ∧
          m.internal_path.length = 1) ∧
      (∀ k m, lookupA st'.modules k = some m →
        lookupA st.modules k = some m ∨ m.parent < k) ∧
      List.Forall₂ (ChildNamed st') subs
        (modDecls path.getLast?.isSome items)) := by
  intro fuel
  induction fuel with
  | zero =>
    constructor
    · intro env st parent path ip items attrs vis idr st' h
      exact Option.noConfusion h
    · intro env st items parent path ip subs st' h
      exact Option.noConfusion h
  | succ n ih =>
    obtain ⟨ihA, ihE⟩ := ih
    constructor
    · intro env st parent path ip items attrs vis idr st' h hinv hip hattr hpar
      rw [addModule_succ] at h
      obtain ⟨F, hF, hFgrow, hFchar, hFlen⟩ : ∃ F,
          (if ip.length = 1
            then (⟨st.next_module_id + 1,
              insertA st.files_to_ids path st.next_module_id,
              st.modules⟩ : PackageBuilder)
            else ⟨st.next_module_id + 1, st.files_to_ids, st.modules⟩) =
            (⟨st.next_module_id + 1, F, st.modules⟩ : PackageBuilder) ∧
          (∀ p, (lookupA st.files_to_ids p).isSome = true →
            (lookupA F p).isSome = true) ∧
          (∀ p k, lookupA F p = some k →
            lookupA st.files_to_ids p = some k ∨
            (p = path ∧ k = st.next_module_id ∧ ip.length = 1)) ∧
          (ip.length = 1 → lookupA F path = some st.next_module_id) := by
        split
        · rename_i hlen
          refine ⟨insertA st.files_to_ids path st.next_module_id, rfl,
            fun p hp => lookupA_insertA_isSome _ _ _ _ hp, ?_,
            fun _ => lookupA_insertA_self _ _ _⟩
          intro p k hpk
          rw [lookupA_insertA] at hpk
          by_cases hpp : p = path
          · rw [if_pos hpp] at hpk
            exact Or.inr ⟨hpp, (Option.some.inj hpk).symm, hlen⟩
          · rw [if_neg hpp] at hpk
            exact Or.inl hpk
        · rename_i hlen
          exact ⟨st.files_to_ids, rfl, fun p hp => hp,
            fun p k hpk => Or.inl hpk, fun hl => absurd hl hlen⟩
      rw [hF] at h
      split at h
      · exact Option.noConfusion h
      · exact Except.noConfusion (Option.some.inj h)
      · rename_i pr2 subs st3 hex
        simp only [Option.some.injEq, Except.ok.injEq, Prod.mk.injEq] at h
        obtain ⟨hid, hst⟩ := h
        subst hid
        subst hst
        have hcore : ExpOut ⟨st.next_module_id + 1, F, st.modules⟩ st3 subs :=
          exploreSubmodules_out hex
        have hle : st.next_module_id + 1 ≤ st3.next_module_id := hcore.nextLe
        have hinv2 : BInv ⟨st.next_module_id + 1, F, st.modules⟩ := by
          refine ⟨?_, hinv.nodup, hinv.attrsIff, hinv.subsGt, ?_, ?_⟩
          · intro k m hkm
            exact Nat.lt_succ_of_lt (hinv.below k m hkm)
          · intro k m hkm hl1
            exact hFgrow _ (hinv.filesCover k m hkm hl1)
          · intro k m hkm
            exact List.Forall₂.imp (fun a b hcd => hcd)
              (hinv.subsNames k m hkm)
        obtain ⟨hinv3, hfp3, hpr3, hnames3⟩ :=
          ihE env ⟨st.next_module_id + 1, F, st.modules⟩ items
            st.next_module_id path ip subs st3 hex hinv2 hip
            (Nat.lt_succ_self _)
        have hidnone : lookupA st3.modules st.next_module_id = none := by
          cases hc : lookupA st3.modules st.next_module_id with
          | none => rfl
          | some m =>
            rcases hcore.newKeys _ m hc with h4 | h4
            · exact absurd (hinv.below _ m h4) (Nat.lt_irrefl _)
            · have h5 : st.next_module_id + 1 ≤ st.next_module_id := h4.1
              exact absurd h5 (Nat.not_succ_le_self _)
        refine ⟨⟨?_, ?_, ?_, ?_, ?_, ?_⟩, ?_, ?_⟩
        · intro k m hkm
          show k < st3.next_module_id
          have hkm2 : lookupA (insertA st3.modules st.next_module_id
              ⟨path, ip, vis, subs, parent, items, attrs⟩) k = some m := hkm
          rw [lookupA_insertA] at hkm2
          by_cases hk : k = st.next_module_id
          · subst hk
            exact Nat.lt_of_succ_le hle
          · rw [if_neg hk] at hkm2
            exact hinv3.below k m hkm2
        · show ((insertA st3.modules st.next_module_id
            ⟨path, ip, vis, subs, parent, items, attrs⟩).map Prod.fst).Nodup
          rw [insertA_of_lookup_none _ _ _ hidnone, List.map_append]
          refine List.nodup_append.mpr
            ⟨hinv3.nodup, List.nodup_singleton _, ?_⟩
          intro a ha hb
          rw [List.map_singleton, List.mem_singleton] at hb
          subst hb
          exact lookupA_eq_none_of_not_mem st3.modules _
            (fun v hv => by
              rw [hidnone] at hv
              exact Option.noConfusion hv) ha
        · intro k m hkm
          have hkm2 : lookupA (insertA st3.modules st.next_module_id
              ⟨path, ip, vis, subs, parent, items, attrs⟩) k = some m := hkm
          rw [lookupA_insertA] at hkm2
          by_cases hk : k = st.next_module_id
          · rw [if_pos hk] at hkm2
            cases Option.some.inj hkm2
            exact hattr
          · rw [if_neg hk] at hkm2
            exact hinv3.attrsIff k m hkm2
        · intro k m hkm
          have hkm2 : lookupA (insertA st3.modules st.next_module_id
              ⟨path, ip, vis, subs, parent, items, attrs⟩) k = some m := hkm
          rw [lookupA_insertA] at hkm2
          by_cases hk : k = st.next_module_id
          · rw [if_pos hk] at hkm2
            cases Option.some.inj hkm2
            subst hk
            intro c hc
            have h4 : st.next_module_id + 1 ≤ c := (hcore.subsBound c hc).1
            exact Nat.lt_of_succ_le h4
          · rw [if_neg hk] at hkm2
            exact hinv3.subsGt k m hkm2
        · intro k m hkm hl1
          have hkm2 : lookupA (insertA st3.modules st.next_module_id
              ⟨path, ip, vis, subs, parent, items, attrs⟩) k = some m := hkm
          rw [lookupA_insertA] at hkm2
          by_cases hk : k = st.next_module_id
          · rw [if_pos hk] at hkm2
            cases Option.some.inj hkm2
            show (lookupA st3.files_to_ids path).isSome = true
            have hent : lookupA F path = some st.next_module_id := hFlen hl1
            have hsome : (lookupA F path).isSome = true := by
              rw [hent]
              rfl
            exact hcore.fGrow path hsome
          · rw [if_neg hk] at hkm2
            exact hinv3.filesCover k m hkm2 hl1
        · intro k m hkm
          have hkm2 : lookupA (insertA st3.modules st.next_module_id
              ⟨path, ip, vis, subs, parent, items, attrs⟩) k = some m := hkm
          rw [lookupA_insertA] at hkm2
          by_cases hk : k = st.next_module_id
          · rw [if_pos hk] at hkm2
            cases Option.some.inj hkm2
            show List.Forall₂ (ChildNamed ⟨st3.next_module_id,
              st3.files_to_ids, insertA st3.modules st.next_module_id
                ⟨path, ip, vis, subs, parent, items, attrs⟩⟩)
              subs (modDecls path.getLast?.isSome items)
            exact List.Forall₂.imp
              (fun a b hcd => ChildNamed.insertMono hidnone hcd) hnames3
          · rw [if_neg hk] at hkm2
            exact List.Forall₂.imp
              (fun a b hcd => ChildNamed.insertMono hidnone hcd)
              (hinv3.subsNames k m hkm2)
        · intro p k hpk
          have hpk3 : lookupA st3.files_to_ids p = some k := hpk
          rcases hfp3 p k hpk3 with h4 | h4
          · rcases hFchar p k h4 with h5 | h5
            · exact Or.inl h5
            · obtain ⟨hpp, hkk, hlen1⟩ := h5
              subst hpp
              subst hkk
              refine Or.inr ⟨⟨p, ip, vis, subs, parent, items, attrs⟩,
                lookupA_insertA_self _ _ _, rfl, hlen1⟩
          · obtain ⟨m, hm1, hm2, hm3⟩ := h4
            refine Or.inr ⟨m, ?_, hm2, hm3⟩
            have hkne : ¬ k = st.next_module_id := by
              intro hkk
              rw [hkk, hidnone] at hm1
              exact Option.noConfusion hm1
            show lookupA (insertA st3.modules st.next_module_id
              ⟨path, ip, vis, subs, parent, items, attrs⟩) k = some m
            rw [lookupA_insertA, if_neg hkne]
            exact hm1
        · intro k m hkm
          have hkm2 : lookupA (insertA st3.modules st.next_module_id
              ⟨path, ip, vis, subs, parent, items, attrs⟩) k = some m := hkm
          rw [lookupA_insertA] at hkm2
          by_cases hk : k = st.next_module_id
          · rw [if_pos hk] at hkm2
            cases Option.some.inj hkm2
            exact Or.inr (Or.inr ⟨hk, rfl⟩)
          · rw [if_neg hk] at hkm2
            rcases hpr3 k m hkm2 with h4 | h4
            · exact Or.inl h4
            · exact Or.inr (Or.inl h4)
    · intro env st items parent path ip subs st' h hinv hip hpar
      match items with
      | [] =>
        rw [explore_nil] at h
        simp only [Option.some.injEq, Except.ok.injEq, Prod.mk.injEq] at h
        obtain ⟨h1, h2⟩ := h
        subst h1
        subst h2
        exact ⟨hinv, fun p k hpk => Or.inl hpk, fun k m hkm => Or.inl hkm,
          List.Forall₂.nil⟩
      | Item.other s :: rest =>
        rw [explore_other] at h
        exact ihE env st rest parent path ip subs st' h hinv hip hpar
      | Item.mod vis ident (some body) :: rest =>
        rw [explore_inline] at h
        split at h
        · exact Option.noConfusion h
        · exact Except.noConfusion (Option.some.inj h)
        · rename_i pr2 cid stA hadd
          split at h
          · exact Option.noConfusion h
          · exact Except.noConfusion (Option.some.inj h)
          · rename_i pr3 subs2 stB hrest
            simp only [Option.some.injEq, Except.ok.injEq, Prod.mk.injEq] at h
            obtain ⟨h1, h2⟩ := h
            subst h1
            subst h2
            have hcoreA := addModule_out hadd
            have hcoreE := exploreSubmodules_out hrest
            obtain ⟨hinvA, hfpA, hprA⟩ :=
              ihA env st parent path (ip ++ [ident]) body none vis cid stA
                hadd hinv (by simp)
                (iff_of_false (by simp) (concat_length_ne_one ip ident hip))
                (le_of_lt hpar)
            obtain ⟨hinvB, hfpB, hprB, hnamesB⟩ :=
              ihE env stA rest parent path ip subs2 stB hrest hinvA hip
                (lt_trans hpar hcoreA.nextLt)
            refine ⟨hinvB, ?_, ?_, ?_⟩
            · intro p k hpk
              rcases hfpB p k hpk with h4 | h4
              · rcases hfpA p k h4 with h5 | h5
                · exact Or.inl h5
                · obtain ⟨m, hm1, hm2, hm3⟩ := h5
                  refine Or.inr ⟨m, ?_, hm2, hm3⟩
                  rw [hcoreE.pres k (hinvA.below k m hm1)]
                  exact hm1
              · exact Or.inr h4
            · intro k m hkm
              rcases hprB k m hkm with h4 | h4
              · rcases hprA k m h4 with h5 | h5 | h5
                · exact Or.inl h5
                · exact Or.inr h5
                · obtain ⟨hk1, hk2⟩ := h5
                  refine Or.inr ?_
                  rw [hk2, hk1]
                  exact hpar
              · exact Or.inr h4
            · show List.Forall₂ (ChildNamed stB) (cid :: subs2)
                (modDecls path.getLast?.isSome
                  (Item.mod vis ident (some body) :: rest))
              rw [show modDecls path.getLast?.isSome
                  (Item.mod vis ident (some body) :: rest) =
                (vis, ident, some body) ::
                  modDecls path.getLast?.isSome rest from rfl]
              refine List.Forall₂.cons ?_ hnamesB
              obtain ⟨subs0, hrec, hbnd⟩ := hcoreA.record
              refine ⟨⟨path, ip ++ [ident], vis, subs0, parent, body, none⟩,
                ?_, getLast_concat ip ident⟩
              rw [hcoreE.pres cid (by rw [hcoreA.idEq]; exact hcoreA.nextLt)]
              exact hrec
      | Item.mod vis ident none :: rest =>
        rw [explore_declared] at h
        split at h
        · rename_i hres
          have hkey : path.getLast?.isSome = false := by
            rw [resolveModFile_getLast_none hres]
            rfl
          obtain ⟨hinvB, hfpB, hprB, hnamesB⟩ :=
            ihE env st rest parent path ip subs st' h hinv hip hpar
          refine ⟨hinvB, hfpB, hprB, ?_⟩
          rw [hkey] at hnamesB ⊢
          rw [show modDecls false (Item.mod vis ident none :: rest) =
            modDecls false rest from rfl]
          exact hnamesB
        · rename_i resolved hres
          split at h
          · exact Except.noConfusion (Option.some.inj h)
          · rename_i content hread
            split at h
            · exact Except.noConfusion (Option.some.inj h)
            · rename_i pf hparse
              split at h
              · exact Option.noConfusion h
              · exact Except.noConfusion (Option.some.inj h)
              · rename_i pr2 cid stA hadd
                split at h
                · exact Option.noConfusion h
                · exact Except.noConfusion (Option.some.inj h)
                · rename_i pr3 subs2 stB hrest
                  simp only [Option.some.injEq, Except.ok.injEq,
                    Prod.mk.injEq] at h
                  obtain ⟨h1, h2⟩ := h
                  subst h1
                  subst h2
                  have hcoreA := addModule_out hadd
                  have hcoreE := exploreSubmodules_out hrest
                  obtain ⟨hinvA, hfpA, hprA⟩ :=
                    ihA env st parent resolved [ident] pf.items
                      (some pf.attrs) vis cid stA hadd hinv (by simp)
                      (iff_of_true rfl rfl) (le_of_lt hpar)
                  obtain ⟨hinvB, hfpB, hprB, hnamesB⟩ :=
                    ihE env stA rest parent path ip subs2 stB hrest hinvA hip
                      (lt_trans hpar hcoreA.nextLt)
                  refine ⟨hinvB, ?_, ?_, ?_⟩
                  · intro p k hpk
                    rcases hfpB p k hpk with h4 | h4
                    · rcases hfpA p k h4 with h5 | h5
                      · exact Or.inl h5
                      · obtain ⟨m, hm1, hm2, hm3⟩ := h5
                        refine Or.inr ⟨m, ?_, hm2, hm3⟩
                        rw [hcoreE.pres k (hinvA.below k m hm1)]
                        exact hm1
                    · exact Or.inr h4
                  · intro k m hkm
                    rcases hprB k m hkm with h4 | h4
                    · rcases hprA k m h4 with h5 | h5 | h5
                      · exact Or.inl h5
                      · exact Or.inr h5
                      · obtain ⟨hk1, hk2⟩ := h5
                        refine Or.inr ?_
                        rw [hk2, hk1]
                        exact hpar
                    · exact Or.inr h4
                  · have hkey : path.getLast?.isSome = true :=
                      resolveModFile_getLast_isSome hres
                    show List.Forall₂ (ChildNamed stB) (cid :: subs2)
                      (modDecls path.getLast?.isSome
                        (Item.mod vis ident none :: rest))
                    rw [hkey] at hnamesB ⊢
                    rw [show modDecls true (Item.mod vis ident none :: rest) =
                      (vis, ident, none) :: modDecls true rest from rfl]
                    refine List.Forall₂.cons ?_ hnamesB
                    obtain ⟨subs0, hrec, hbnd⟩ := hcoreA.record
                    refine ⟨⟨resolved, [ident], vis, subs0, parent,
                      pf.items, some pf.attrs⟩, ?_, rfl⟩
                    rw [hcoreE.pres cid
                      (by rw [hcoreA.idEq]; exact hcoreA.nextLt)]
                    exact hrec

/-! ### Package-level plumbing -/

theorem BInv_empty : BInv ⟨0, [], []⟩ := by
  refine ⟨?_, ?_, ?_, ?_, ?_, ?_⟩
  · intro k m hkm
    exact Option.noConfusion hkm
  · simp
  · intro k m hkm
    exact Option.noConfusion hkm
  · intro k m hkm
    exact Option.noConfusion hkm
  · intro k m hkm
    exact Option.noConfusion hkm
  · intro k m hkm
    exact Option.noConfusion hkm

theorem resolveModFile_some (ex : Path → Bool) (path : Path) (last : String)
    (ip2 : List String) (hlast : path.getLast? = some last) :
    resolveModFile ex path ip2 =
      some (if ex (candidateDir path last ip2 ++ ["mod.rs"]) = true
        then candidateDir path last ip2 ++ ["mod.rs"]
        else setExtension (candidateDir path last ip2) "rs") := by
  simp only [resolveModFile, hlast, candidateDir]
  split <;> (split <;> rfl)

/-- Decomposition of a successful `from_root_file` run. -/
theorem from_root_file_ok {fuel : Nat} {env : Env} {path : Path}
    {pkg : Package}
    (h : from_root_file fuel env path = some (Except.ok pkg)) :
    ∃ content pf rootId b,
      env.read path = Except.ok content ∧
      env.parse content = Except.ok pf ∧
      addModule fuel env ⟨0, [], []⟩ 0 path ["crate"] pf.items
        (some pf.attrs) Visibility.pub = some (Except.ok (rootId, b)) ∧
      pkg = ⟨rootId, b.files_to_ids, b.modules⟩ := by
  simp only [from_root_file] at h
  split at h
  · exact Except.noConfusion (Option.some.inj h)
  · rename_i content hread
    split at h
    · exact Except.noConfusion (Option.some.inj h)
    · rename_i pf hparse
      split at h
      · exact Option.noConfusion h
      · exact Except.noConfusion (Option.some.inj h)
      · rename_i pr rootId b hadd
        have h2 : Package.mk rootId b.files_to_ids b.modules = pkg :=
          Option.some.inj h |> Except.ok.inj
        exact ⟨content, pf, rootId, b, hread, hparse, hadd, h2.symm⟩

/-! ### Claim theorems -/

/-- C4: in every successfully built Package the module identifiers are
unique natural numbers allocated monotonically starting at zero in pre-order
visit order: the root module has identifier 0, the stored identifiers are
pairwise distinct, and every module's identifier is strictly smaller than
each of its submodules' identifiers (it was allocated before them). -/
theorem C4_preorder_ids (fuel : Nat) (env : Env) (path : Path) (pkg : Package)
    (h : from_root_file fuel env path = some (Except.ok pkg)) :
    pkg.root_module = 0 ∧
    (pkg.modules.map Prod.fst).Nodup ∧
    (∀ k m, lookupA pkg.modules k = some m → ∀ c ∈ m.submodules, k < c) := by
  obtain ⟨content, pf, rootId, b, hread, hparse, hadd, hpkg⟩ :=
    from_root_file_ok h
  have hcore := addModule_out hadd
  obtain ⟨hinvb, hfp, hpr⟩ :=
    (invAux fuel).1 env ⟨0, [], []⟩ 0 path ["crate"] pf.items (some pf.attrs)
      Visibility.pub rootId b hadd BInv_empty (by simp)
      (iff_of_true rfl rfl) (le_refl 0)
  subst hpkg
  exact ⟨hcore.idEq, hinvb.nodup, hinvb.subsGt⟩

/-- C5: in every successfully built Package the root module is its own
parent, and every non-root module's parent identifier is strictly smaller
than its own identifier (so no module other than the root is its own
parent). -/
theorem C5_root_self_parent (fuel : Nat) (env : Env) (path : Path)
    (pkg : Package)
    (h : from_root_file fuel env path = some (Except.ok pkg)) :
    (∃ mroot, lookupA pkg.modules pkg.root_module = some mroot ∧
      mroot.parent = pkg.root_module) ∧
    (∀ k m, lookupA pkg.modules k = some m → k ≠ pkg.root_module →
      m.parent < k) := by
  obtain ⟨content, pf, rootId, b, hread, hparse, hadd, hpkg⟩ :=
    from_root_file_ok h
  have hcore := addModule_out hadd
  obtain ⟨hinvb, hfp, hpr⟩ :=
    (invAux fuel).1 env ⟨0, [], []⟩ 0 path ["crate"] pf.items (some pf.attrs)
      Visibility.pub rootId b hadd BInv_empty (by simp)
      (iff_of_true rfl rfl) (le_refl 0)
  subst hpkg
  constructor
  · obtain ⟨subs0, hrec, hbnd⟩ := hcore.record
    exact ⟨_, hrec, hcore.idEq.symm⟩
  · intro k m hkm hkne
    rcases hpr k m hkm with h4 | h4 | h4
    · exact Option.noConfusion h4
    · exact h4
    · exact absurd (h4.1.trans hcore.idEq.symm) hkne

/-- C7: in every successfully built Package a module's `attributes` is
present (Some) if and only if its `internal_path` has length 1: the root
module and declared-only file-backed modules carry the parsed file
attributes, inline modules carry none. -/
theorem C7_attributes_iff_file_root (fuel : Nat) (env : Env) (path : Path)
    (pkg : Package)
    (h : from_root_file fuel env path = some (Except.ok pkg)) :
    ∀ k m, lookupA pkg.modules k = some m →
      (m.attributes.isSome = true ↔ m.internal_path.length = 1) := by
  obtain ⟨content, pf, rootId, b, hread, hparse, hadd, hpkg⟩ :=
    from_root_file_ok h
  obtain ⟨hinvb, hfp, hpr⟩ :=
    (invAux fuel).1 env ⟨0, [], []⟩ 0 path ["crate"] pf.items (some pf.attrs)
      Visibility.pub rootId b hadd BInv_empty (by simp)
      (iff_of_true rfl rfl) (le_refl 0)
  subst hpkg
  exact hinvb.attrsIff

/-- C6 (amended): in every successfully built Package, every entry of
`files_to_ids` maps a file path to the identifier of a module whose `file`
is that path and whose `internal_path` has length 1; and conversely every
module with `internal_path` of length 1 has an entry registered for its
`file` (though, when several modules share a file, that entry holds the
identifier of the last one registered, not necessarily this module's). -/
theorem C6_files_to_ids_amended (fuel : Nat) (env : Env) (path : Path)
    (pkg : Package)
    (h : from_root_file fuel env path = some (Except.ok pkg)) :
    (∀ p k, lookupA pkg.files_to_ids p = some k →
      ∃ m, lookupA pkg.modules k = some m ∧ m.file = p ∧
        m.internal_path.length = 1) ∧
    (∀ k m, lookupA pkg.modules k = some m → m.internal_path.length = 1 →
      (lookupA pkg.files_to_ids m.file).isSome = true) := by
  obtain ⟨content, pf, rootId, b, hread, hparse, hadd, hpkg⟩ :=
    from_root_file_ok h
  obtain ⟨hinvb, hfp, hpr⟩ :=
    (invAux fuel).1 env ⟨0, [], []⟩ 0 path ["crate"] pf.items (some pf.attrs)
      Visibility.pub rootId b hadd BInv_empty (by simp)
      (iff_of_true rfl rfl) (le_refl 0)
  subst hpkg
  constructor
  · intro p k hpk
    rcases hfp p k hpk with h4 | h4
    · exact Option.noConfusion h4
    · exact h4
  · exact hinvb.filesCover

/-- C8 (amended): in every successfully built Package, every module's
`submodules` pairs one child identifier — in textual order — with each
module declaration among its items that `explore_submodules` does not skip
(all of them, except declared-only declarations processed while the current
file's path has no final name component); the child's stored internal path
ends in the declared name, and items that are not module declarations
contribute nothing. -/
theorem C8_submodules_order_amended (fuel : Nat) (env : Env) (path : Path)
    (pkg : Package)
    (h : from_root_file fuel env path = some (Except.ok pkg)) :
    ∀ k m, lookupA pkg.modules k = some m →
      List.Forall₂ (fun c d => ∃ m2, lookupA pkg.modules c = some m2 ∧
          m2.internal_path.getLast? = some d.2.1)
        m.submodules (modDecls m.file.getLast?.isSome m.items) := by
  obtain ⟨content, pf, rootId, b, hread, hparse, hadd, hpkg⟩ :=
    from_root_file_ok h
  obtain ⟨hinvb, hfp, hpr⟩ :=
    (invAux fuel).1 env ⟨0, [], []⟩ 0 path ["crate"] pf.items (some pf.attrs)
      Visibility.pub rootId b hadd BInv_empty (by simp)
      (iff_of_true rfl rfl) (le_refl 0)
  subst hpkg
  exact hinvb.subsNames

/-- C3: construction is strict fail-fast and errors are faithful, at every
site of the traversal. A failing read yields an I/O error carrying exactly
the failing path and a failing parse yields the parser's own diagnostic,
both for the root file and for any file a declared-only submodule resolves
to (the latter independently of the builder state, position and remaining
siblings — nothing after the failure is consulted). Every enclosing frame —
the sibling loop past a successful inline, declared-only or non-module
item, the enclosing `add_module`, and `from_root_file` itself — returns the
inner error unchanged, so the first failure anywhere in the traversal
aborts the entire construction and reaches the caller verbatim.
Conversely, every I/O error `from_root_file` returns carries exactly a path
whose read failed with that message, and every syntax error is the parser's
diagnostic on some read content; the `Except` result makes an error
exclusive of any (partial) Package value. -/
theorem C3_fail_fast_errors (fuel : Nat) (env : Env) :
    (∀ path e, env.read path = Except.error e →
      from_root_file fuel env path =
        some (Except.error (Error.IoError path e))) ∧
    (∀ path content e, env.read path = Except.ok content →
      env.parse content = Except.error e →
      from_root_file fuel env path = some (Except.error (Error.Syn e))) ∧
    (∀ st vis ident rest parent path ip resolved e,
      resolveModFile env.pathExists path (ip ++ [ident]) = some resolved →
      env.read resolved = Except.error e →
      exploreSubmodules (fuel + 1) env st (Item.mod vis ident none :: rest)
        parent path ip =
        some (Except.error (Error.IoError resolved e))) ∧
    (∀ st vis ident rest parent path ip resolved content e,
      resolveModFile env.pathExists path (ip ++ [ident]) = some resolved →
      env.read resolved = Except.ok content →
      env.parse content = Except.error e →
      exploreSubmodules (fuel + 1) env st (Item.mod vis ident none :: rest)
        parent path ip = some (Except.error (Error.Syn e))) ∧
    (∀ st vis ident body rest parent path ip e,
      addModule fuel env st parent path (ip ++ [ident]) body none vis =
        some (Except.error e) →
      exploreSubmodules (fuel + 1) env st
        (Item.mod vis ident (some body) :: rest) parent path ip =
        some (Except.error e)) ∧
    (∀ st vis ident rest parent path ip resolved content pf e,
      resolveModFile env.pathExists path (ip ++ [ident]) = some resolved →
      env.read resolved = Except.ok content →
      env.parse content = Except.ok pf →
      addModule fuel env st parent resolved [ident] pf.items (some pf.attrs)
        vis = some (Except.error e) →
      exploreSubmodules (fuel + 1) env st (Item.mod vis ident none :: rest)
        parent path ip = some (Except.error e)) ∧
    (∀ st vis ident body rest parent path ip cid stA e,
      addModule fuel env st parent path (ip ++ [ident]) body none vis =
        some (Except.ok (cid, stA)) →
      exploreSubmodules fuel env stA rest parent path ip =
        some (Except.error e) →
      exploreSubmodules (fuel + 1) env st
        (Item.mod vis ident (some body) :: rest) parent path ip =
        some (Except.error e)) ∧
    (∀ st vis ident rest parent path ip resolved content pf cid stA e,
      resolveModFile env.pathExists path (ip ++ [ident]) = some resolved →
      env.read resolved = Except.ok content →
      env.parse content = Except.ok pf →
      addModule fuel env st parent resolved [ident] pf.items (some pf.attrs)
        vis = some (Except.ok (cid, stA)) →
      exploreSubmodules fuel env stA rest parent path ip =
        some (Except.error e) →
      exploreSubmodules (fuel + 1) env st (Item.mod vis ident none :: rest)
        parent path ip = some (Except.error e)) ∧
    (∀ st s rest parent path ip,
      exploreSubmodules (fuel + 1) env st (Item.other s :: rest) parent
        path ip = exploreSubmodules fuel env st rest parent path ip) ∧
    (∀ st parent path ip items attrs vis e,
      exploreSubmodules fuel env
        (if ip.length = 1
          then (⟨st.next_module_id + 1,
            insertA st.files_to_ids path st.next_module_id,
            st.modules⟩ : PackageBuilder)
          else ⟨st.next_module_id + 1, st.files_to_ids, st.modules⟩)
        items st.next_module_id path ip = some (Except.error e) →
      addModule (fuel + 1) env st parent path ip items attrs vis =
        some (Except.error e)) ∧
    (∀ path content pf e, env.read path = Except.ok content →
      env.parse content = Except.ok pf →
      addModule fuel env ⟨0, [], []⟩ 0 path ["crate"] pf.items
        (some pf.attrs) Visibility.pub = some (Except.error e) →
      from_root_file fuel env path = some (Except.error e)) ∧
    (∀ path p e, from_root_file fuel env path =
        some (Except.error (Error.IoError p e)) →
      env.read p = Except.error e) ∧
    (∀ path s, from_root_file fuel env path =
        some (Except.error (Error.Syn s)) →
      ∃ c, env.parse c = Except.error s) := by
  refine ⟨?_, ?_, ?_, ?_, ?_, ?_, ?_, ?_, ?_, ?_, ?_, ?_, ?_⟩
  · intro path e he
    simp only [from_root_file, he]
  · intro path content e hread hparse
    simp only [from_root_file, hread, hparse]
  · intro st vis ident rest parent path ip resolved e hres hread
    rw [explore_declared_resolved fuel env st vis ident rest parent path ip
      resolved hres, hread]
  · intro st vis ident rest parent path ip resolved content e hres hread
      hparse
    rw [explore_declared_resolved fuel env st vis ident rest parent path ip
      resolved hres]
    simp only [hread, hparse]
  · intro st vis ident body rest parent path ip e hadd
    rw [explore_inline, hadd]
  · intro st vis ident rest parent path ip resolved content pf e hres hread
      hparse hadd
    rw [explore_declared_resolved fuel env st vis ident rest parent path ip
      resolved hres]
    simp only [hread, hparse, hadd]
  · intro st vis ident body rest parent path ip cid stA e hadd hrest
    rw [explore_inline_ok fuel env st vis ident body rest parent path ip cid
      stA hadd, hrest]
  · intro st vis ident rest parent path ip resolved content pf cid stA e
      hres hread hparse hadd hrest
    rw [explore_declared_ok fuel env st vis ident rest parent path ip
      resolved content pf cid stA hres hread hparse hadd, hrest]
  · intro st s rest parent path ip
    exact explore_other fuel env st s rest parent path ip
  · intro st parent path ip items attrs vis e hexp
    rw [addModule_succ, hexp]
  · intro path content pf e hread hparse hadd
    simp only [from_root_file, hread, hparse, hadd]
  · intro path p e h
    simp only [from_root_file] at h
    split at h
    · rename_i e2 hread
      have h2 := Option.some.inj h
      injection h2 with h3
      injection h3 with h4 h5
      subst h4
      subst h5
      exact hread
    · rename_i content hread
      split at h
      · rename_i e2 hparse
        have h2 := Option.some.inj h
        injection h2 with h3
        exact Error.noConfusion h3
      · rename_i pf hparse
        split at h
        · exact Option.noConfusion h
        · rename_i e2 hadd
          have h2 := Option.some.inj h
          injection h2 with h3
          subst h3
          exact ((errAux fuel).1 _ _ _ _ _ _ _ _ _ hadd).1 p e rfl
        · exact Except.noConfusion (Option.some.inj h)
  · intro path s h
    simp only [from_root_file] at h
    split at h
    · rename_i e2 hread
      have h2 := Option.some.inj h
      injection h2 with h3
      exact Error.noConfusion h3
    · rename_i content hread
      split at h
      · rename_i e2 hparse
        have h2 := Option.some.inj h
        injection h2 with h3
        injection h3 with h4
        subst h4
        exact ⟨content, hparse⟩
      · rename_i pf hparse
        split at h
        · exact Option.noConfusion h
        · rename_i e2 hadd
          have h2 := Option.some.inj h
          injection h2 with h3
          subst h3
          exact ((errAux fuel).1 _ _ _ _ _ _ _ _ _ hadd).2 s rfl
        · exact Except.noConfusion (Option.some.inj h)

/-- C1: when a declared-only module declaration (`mod ident;`) is resolved
during exploration and the whole step succeeds, the stored submodule's `file`
is the candidate directory's index file `mod.rs` when that file exists, and
otherwise the sibling file obtained by setting the `.rs` extension on the
candidate path. -/
theorem C1_declared_file_resolution (fuel : Nat) (env : Env)
    (st : PackageBuilder) (parent : ModuleId) (path : Path) (ip : List String)
    (vis : Visibility) (ident : String) (rest : List Item) (last : String)
    (cid : ModuleId) (subs : List ModuleId) (st' : PackageBuilder)
    (hlast : path.getLast? = some last)
    (h : exploreSubmodules (fuel + 1) env st
      (Item.mod vis ident none :: rest) parent path ip =
      some (Except.ok (cid :: subs, st'))) :
    ∃ m, lookupA st'.modules cid = some m ∧
      (if env.pathExists
          (candidateDir path last (ip ++ [ident]) ++ ["mod.rs"]) = true
       then m.file = candidateDir path last (ip ++ [ident]) ++ ["mod.rs"]
       else m.file =
         setExtension (candidateDir path last (ip ++ [ident])) "rs") := by
  rw [explore_declared] at h
  split at h
  · rename_i hres
    rw [resolveModFile_getLast_none hres] at hlast
    exact Option.noConfusion hlast
  · rename_i resolved hres
    have hR : (if env.pathExists
          (candidateDir path last (ip ++ [ident]) ++ ["mod.rs"]) = true
        then candidateDir path last (ip ++ [ident]) ++ ["mod.rs"]
        else setExtension (candidateDir path last (ip ++ [ident])) "rs") =
        resolved :=
      Option.some.inj
        ((resolveModFile_some env.pathExists path last (ip ++ [ident])
          hlast).symm.trans hres)
    split at h
    · exact Except.noConfusion (Option.some.inj h)
    · rename_i content hread
      split at h
      · exact Except.noConfusion (Option.some.inj h)
      · rename_i pf hparse
        split at h
        · exact Option.noConfusion h
        · exact Except.noConfusion (Option.some.inj h)
        · rename_i pr2 cid2 stA hadd
          split at h
          · exact Option.noConfusion h
          · exact Except.noConfusion (Option.some.inj h)
          · rename_i pr3 subs2 stB hrest
            simp only [Option.some.injEq, Except.ok.injEq, Prod.mk.injEq,
              List.cons.injEq] at h
            obtain ⟨⟨h1, h2⟩, h3⟩ := h
            subst h1
            subst h2
            subst h3
            have hcoreA := addModule_out hadd
            have hcoreE := exploreSubmodules_out hrest
            obtain ⟨subs0, hrec, hbnd⟩ := hcoreA.record
            refine ⟨⟨resolved, [ident], vis, subs0, parent, pf.items,
              some pf.attrs⟩, ?_, ?_⟩
            · rw [hcoreE.pres cid2
                (by rw [hcoreA.idEq]; exact hcoreA.nextLt)]
              exact hrec
            · by_cases hc : env.pathExists
                  (candidateDir path last (ip ++ [ident]) ++ ["mod.rs"]) = true
              · rw [if_pos hc]
                rw [if_pos hc] at hR
                exact hR.symm
              · rw [if_neg hc]
                rw [if_neg hc] at hR
                exact hR.symm

/-- C2: when a declared-only module declaration is resolved, read and parsed
successfully, the stored record's `internal_path` is exactly the single
declared trailing segment, its `attributes` is present (Some), and its
`parent` is the enclosing module's identifier. -/
theorem C2_declared_module_record (fuel : Nat) (env : Env)
    (st : PackageBuilder) (parent : ModuleId) (path : Path) (ip : List String)
    (vis : Visibility) (ident : String) (rest : List Item) (last : String)
    (cid : ModuleId) (subs : List ModuleId) (st' : PackageBuilder)
    (hlast : path.getLast? = some last)
    (h : exploreSubmodules (fuel + 1) env st
      (Item.mod vis ident none :: rest) parent path ip =
      some (Except.ok (cid :: subs, st'))) :
    ∃ m, lookupA st'.modules cid = some m ∧
      m.internal_path = [ident] ∧
      m.attributes.isSome = true ∧
      m.parent = parent := by
  rw [explore_declared] at h
  split at h
  · rename_i hres
    rw [resolveModFile_getLast_none hres] at hlast
    exact Option.noConfusion hlast
  · rename_i resolved hres
    split at h
    · exact Except.noConfusion (Option.some.inj h)
    · rename_i content hread
      split at h
      · exact Except.noConfusion (Option.some.inj h)
      · rename_i pf hparse
        split at h
        · exact Option.noConfusion h
        · exact Except.noConfusion (Option.some.inj h)
        · rename_i pr2 cid2 stA hadd
          split at h
          · exact Option.noConfusion h
          · exact Except.noConfusion (Option.some.inj h)
          · rename_i pr3 subs2 stB hrest
            simp only [Option.some.injEq, Except.ok.injEq, Prod.mk.injEq,
              List.cons.injEq] at h
            obtain ⟨⟨h1, h2⟩, h3⟩ := h
            subst h1
            subst h2
            subst h3
            have hcoreA := addModule_out hadd
            have hcoreE := exploreSubmodules_out hrest
            obtain ⟨subs0, hrec, hbnd⟩ := hcoreA.record
            refine ⟨⟨resolved, [ident], vis, subs0, parent, pf.items,
              some pf.attrs⟩, ?_, rfl, rfl, rfl⟩
            rw [hcoreE.pres cid2 (by rw [hcoreA.idEq]; exact hcoreA.nextLt)]
            exact hrec

/-- C9: in the declared-only path inference, the base directory is the
current file's parent directory exactly when the file's final name component
is `mod.rs` or `lib.rs`; for every other file name (including `main.rs`) the
base is the current path with its extension stripped. -/
theorem C9_index_file_base_dir (ex : Path → Bool) (path : Path)
    (last : String) (ip2 : List String)
    (hlast : path.getLast? = some last) :
    resolveModFile ex path ip2 =
      some (if ex (candidateDir path last ip2 ++ ["mod.rs"]) = true
        then candidateDir path last ip2 ++ ["mod.rs"]
        else setExtension (candidateDir path last ip2) "rs") ∧
    (last = "mod.rs" ∨ last = "lib.rs" →
      candidateDir path last ip2 = path.dropLast ++ ip2.drop 1) ∧
    (¬ (last = "mod.rs" ∨ last = "lib.rs") →
      candidateDir path last ip2 = setExtension path "" ++ ip2.drop 1) := by
  refine ⟨resolveModFile_some ex path last ip2 hlast, ?_, ?_⟩
  · intro hc
    rw [candidateDir, if_pos hc]
  · intro hc
    rw [candidateDir, if_neg hc]

/-- C10: a declared-only module declaration met while the current file's
path has no final name component is silently skipped: exploration continues
with the remaining items on the unchanged state, raising no error,
allocating no identifier and appending no child. -/
theorem C10_no_file_name_skips (fuel : Nat) (env : Env)
    (st : PackageBuilder) (vis : Visibility) (ident : String)
    (rest : List Item) (parent : ModuleId) (path : Path) (ip : List String)
    (hlast : path.getLast? = none) :
    exploreSubmodules (fuel + 1) env st (Item.mod vis ident none :: rest)
        parent path ip =
      exploreSubmodules fuel env st rest parent path ip := by
  have hres : resolveModFile env.pathExists path (ip ++ [ident]) = none := by
    simp only [resolveModFile, hlast]
  rw [explore_declared, hres]

/-! ### Counterexamples -/

/-- C6 counterexample: with a root that declares `mod a;` twice (both
resolving to the sibling file `a.rs`), the build succeeds and stores module 1
with file `a.rs` and a one-segment internal path, yet `files_to_ids` maps
`a.rs` to identifier 2 (the later duplicate), not to 1 — refuting
`files_to_ids[m.file] == id(m)` for every module `m` with a one-segment
internal path. -/
theorem C6_files_to_ids_counterexample :
    from_root_file 10 envDup ["lib.rs"] = some (Except.ok pkgDup) ∧
    (lookupA pkgDup.modules 1).map
      (fun m => (m.file, m.internal_path)) = some (["a.rs"], ["a"]) ∧
    lookupA pkgDup.files_to_ids ["a.rs"] = some 2 ∧
    ¬ lookupA pkgDup.files_to_ids ["a.rs"] = some 1 :=
  ⟨rfl, rfl, rfl, by decide⟩

/-- C8 counterexample: with a root path that has no final name component and
a root file declaring `mod a;`, the build succeeds, the root module's items
contain one module declaration, yet its `submodules` is empty — refuting
"exactly one child identifier per `mod` declaration". -/
theorem C8_submodules_order_counterexample :
    from_root_file 10 envSkip [] = some (Except.ok pkgSkip) ∧
    (lookupA pkgSkip.modules 0).map
        (fun m => (m.submodules, m.items)) =
      some ([], [Item.mod Visibility.inherited "a" none]) :=
  ⟨rfl, rfl⟩

/-! ### Witnesses -/

theorem C1_witness :
    ∃ m, lookupA stFullPre.modules 1 = some m ∧
      (if envFull.pathExists
          (candidateDir ["lib.rs"] "lib.rs" (["crate"] ++ ["a"]) ++
            ["mod.rs"]) = true
       then m.file =
         candidateDir ["lib.rs"] "lib.rs" (["crate"] ++ ["a"]) ++ ["mod.rs"]
       else m.file =
         setExtension (candidateDir ["lib.rs"] "lib.rs" (["crate"] ++ ["a"]))
           "rs") :=
  C1_declared_file_resolution 8 envFull stFullRoot 0 ["lib.rs"] ["crate"]
    Visibility.pub "a" rootRest "lib.rs" 1 [2] stFullPre rfl rfl

theorem C2_witness :
    ∃ m, lookupA stFullPre.modules 1 = some m ∧
      m.internal_path = ["a"] ∧ m.attributes.isSome = true ∧ m.parent = 0 :=
  C2_declared_module_record 8 envFull stFullRoot 0 ["lib.rs"] ["crate"]
    Visibility.pub "a" rootRest "lib.rs" 1 [2] stFullPre rfl rfl

theorem C3_witness :
    from_root_file 10 envScenE ["lib.rs"] =
      some (Except.error (Error.IoError ["a.rs"] "missing")) ∧
    envScenE.read ["a.rs"] = Except.error "missing" ∧
    from_root_file 3 envMiss ["lib.rs"] =
      some (Except.error (Error.IoError ["lib.rs"] "missing")) ∧
    (∃ c, envSyn.parse c = Except.error "oops") := by
  obtain ⟨-, -, p3, -, -, -, -, -, -, -, -, -, -⟩ :=
    C3_fail_fast_errors 8 envScenE
  obtain ⟨-, -, -, -, -, -, -, -, -, p9, -, -, -⟩ :=
    C3_fail_fast_errors 9 envScenE
  obtain ⟨-, -, -, -, -, -, -, -, -, -, p10, p11, -⟩ :=
    C3_fail_fast_errors 10 envScenE
  have h3 := p3 ⟨1, [(["lib.rs"], 0)], []⟩ Visibility.inherited "a" [] 0
    ["lib.rs"] ["crate"] ["a.rs"] "missing" rfl rfl
  have h9 := p9 ⟨0, [], []⟩ 0 ["lib.rs"] ["crate"]
    [Item.mod Visibility.inherited "a" none] (some []) Visibility.pub
    (Error.IoError ["a.rs"] "missing") h3
  have h10 := p10 ["lib.rs"] "L"
    ⟨[Item.mod Visibility.inherited "a" none], []⟩
    (Error.IoError ["a.rs"] "missing") rfl rfl h9
  refine ⟨h10, p11 ["lib.rs"] ["a.rs"] "missing" h10, ?_, ?_⟩
  · exact (C3_fail_fast_errors 3 envMiss).1 ["lib.rs"] "missing" rfl
  · exact (C3_fail_fast_errors 3 envSyn).2.2.2.2.2.2.2.2.2.2.2.2 ["lib.rs"]
      "oops" (by rfl)

theorem C4_witness :
    pkgFull.root_module = 0 ∧ (pkgFull.modules.map Prod.fst).Nodup ∧
    (2 : ModuleId) < 3 := by
  have h := C4_preorder_ids 10 envFull ["lib.rs"] pkgFull rfl
  exact ⟨h.1, h.2.1, h.2.2 2 mFullB rfl 3 (by decide)⟩

theorem C5_witness :
    (∃ mroot, lookupA pkgFull.modules pkgFull.root_module = some mroot ∧
      mroot.parent = pkgFull.root_module) ∧
    mFullB.parent < 2 := by
  have h := C5_root_self_parent 10 envFull ["lib.rs"] pkgFull rfl
  exact ⟨h.1, h.2 2 mFullB rfl (by decide)⟩

theorem C6_witness :
    (∃ m, lookupA pkgDup.modules 2 = some m ∧ m.file = ["a.rs"] ∧
      m.internal_path.length = 1) ∧
    (lookupA pkgDup.files_to_ids mDup1.file).isSome = true := by
  have h := C6_files_to_ids_amended 10 envDup ["lib.rs"] pkgDup rfl
  exact ⟨h.1 ["a.rs"] 2 rfl, h.2 1 mDup1 rfl rfl⟩

theorem C7_witness :
    mFullB.attributes.isSome = true ↔ mFullB.internal_path.length = 1 :=
  C7_attributes_iff_file_root 10 envFull ["lib.rs"] pkgFull rfl 2 mFullB rfl

theorem C8_witness :
    List.Forall₂ (fun c d => ∃ m2, lookupA pkgFull.modules c = some m2 ∧
        m2.internal_path.getLast? = some d.2.1)
      mFullRoot.submodules
      (modDecls mFullRoot.file.getLast?.isSome mFullRoot.items) :=
  C8_submodules_order_amended 10 envFull ["lib.rs"] pkgFull rfl 0 mFullRoot
    rfl

theorem C9_witness :
    resolveModFile (fun _ => false) ["src", "main.rs"] ["crate", "a"] =
      some ["src", "main", "a.rs"] ∧
    candidateDir ["src", "main.rs"] "main.rs" ["crate", "a"] =
      setExtension ["src", "main.rs"] "" ++
        (["crate", "a"] : List String).drop 1 := by
  have h := C9_index_file_base_dir (fun _ => false) ["src", "main.rs"]
    "main.rs" ["crate", "a"] rfl
  exact ⟨h.1, h.2.2 (by decide)⟩

theorem C10_witness :
    exploreSubmodules 2 envSkip ⟨1, [([], 0)], []⟩
        [Item.mod Visibility.inherited "a" none] 0 [] ["crate"] =
      exploreSubmodules 1 envSkip ⟨1, [([], 0)], []⟩ [] 0 [] ["crate"] :=
  C10_no_file_name_skips 1 envSkip ⟨1, [([], 0)], []⟩ Visibility.inherited
    "a" [] 0 [] ["crate"] rfl

end GodotDoc
